import Mathlib

/-
Verification of the flac-tracksplit splitting logic.

The definitions below are a shallow embedding of the splitting code in
`examples/split_file.rs`: the cue-sheet segmentation loop of `main`, the
`Track` structure with `from_tags`, `pathname`, `write_metadata` and
`write_audio`, plus a model (from the specification) of the frame-rewrite
engine (`OffsetFrame::process`) whose implementation lives in the library
crate. Machine integers (u32/u64) are modelled as `Nat`; the values involved
(sample counts, byte values) never overflow in the modelled code paths.
-/

set_option autoImplicit false
set_option maxRecDepth 8192

namespace FlacSplit

/-- A cue point as read from the container (symphonia `Cue`): a track
index and an absolute starting timestamp in samples. -/
structure Cue where
  index : Nat
  start_ts : Nat
  deriving DecidableEq, Repr

/-- The reserved cue index marking the lead-out (end of program). -/
def LEAD_OUT_TRACK_NUMBER : Nat := 170

/-- A derived track range: track number plus the half-open sample interval
`[start_ts, end_ts)` the track covers. -/
structure TrackRange where
  number : Nat
  start_ts : Nat
  end_ts : Nat
  deriving DecidableEq, Repr

/-- Cue-sheet segmentation, embedding the `while let Some(cue) = cue_iter.next()`
loop of `main` in `examples/split_file.rs` (lines 65-77): each cue opens a
range; the range ends at the next cue's start (consuming the next cue when it
is the lead-out marker), or at `total` (the stream's total sample count) when
no cue follows. -/
def segment (total : Nat) : List Cue → List TrackRange
  | [] => []
  | [c] => [⟨c.index, c.start_ts, total⟩]
  | c :: n :: rest =>
    if n.index = LEAD_OUT_TRACK_NUMBER then
      ⟨c.index, c.start_ts, n.start_ts⟩ :: segment total rest
    else
      ⟨c.index, c.start_ts, n.start_ts⟩ :: segment total (n :: rest)

/-- Cue starts are strictly increasing. -/
def cuesSorted : List Cue → Bool
  | [] => true
  | [_] => true
  | a :: b :: rest => decide (a.start_ts < b.start_ts) && cuesSorted (b :: rest)

/-- No cue other than (possibly) the last one is the lead-out marker. -/
def noMidLeadOut : List Cue → Bool
  | [] => true
  | [_] => true
  | a :: b :: rest => (a.index != LEAD_OUT_TRACK_NUMBER) && noMidLeadOut (b :: rest)

/-- When the last cue is an ordinary track, its start lies strictly before
the total sample count. -/
def lastCueOk (total : Nat) (cues : List Cue) : Bool :=
  match cues.getLast? with
  | none => true
  | some c => (c.index == LEAD_OUT_TRACK_NUMBER) || decide (c.start_ts < total)

/-- The cue list is not a single lead-out marker on its own (a lead-out, when
present, is preceded by at least one real track cue). -/
def leadOutNotAlone : List Cue → Bool
  | [c] => c.index != LEAD_OUT_TRACK_NUMBER
  | _ => true

/-- Consecutive ranges abut: each range's end is the next range's start. -/
def rangesChained : List TrackRange → Bool
  | [] => true
  | [_] => true
  | a :: b :: rest => (a.end_ts == b.start_ts) && rangesChained (b :: rest)

/-- Every range is non-degenerate: its start lies strictly before its end. -/
def rangesProper (rs : List TrackRange) : Bool :=
  rs.all fun r => decide (r.start_ts < r.end_ts)

/-- The end the specification expects for the final range: the lead-out's
start when the last cue is the lead-out marker, the total sample count
otherwise. This definition follows the spec's words, for comparison with
what `segment` produces. -/
def specFinalEnd (total : Nat) (cues : List Cue) : Nat :=
  match cues.getLast? with
  | some c => if c.index = LEAD_OUT_TRACK_NUMBER then c.start_ts else total
  | none => total

theorem segment_ne_nil (total : Nat) :
    ∀ cues : List Cue, cues ≠ [] → segment total cues ≠ [] := by
  intro cues hne
  match cues with
  | [c] => simp [segment]
  | c :: n :: rest =>
    unfold segment
    split <;> simp

theorem segment_head_start (total : Nat) :
    ∀ cues : List Cue,
      (segment total cues).head?.map TrackRange.start_ts =
        cues.head?.map Cue.start_ts := by
  intro cues
  match cues with
  | [] => rfl
  | [c] => rfl
  | c :: n :: rest =>
    unfold segment
    split <;> rfl

theorem segment_chained (total : Nat) :
    ∀ cues : List Cue, noMidLeadOut cues = true →
      rangesChained (segment total cues) = true
  | [], _ => rfl
  | [_], _ => rfl
  | c :: n :: rest, h => by
    have hh : c.index ≠ LEAD_OUT_TRACK_NUMBER ∧ noMidLeadOut (n :: rest) = true := by
      simpa [noMidLeadOut] using h
    unfold segment
    by_cases hn : n.index = LEAD_OUT_TRACK_NUMBER
    · rw [if_pos hn]
      match rest with
      | [] => rfl
      | r :: rest' =>
        exfalso
        have := hh.2
        simp [noMidLeadOut, hn] at this
    · rw [if_neg hn]
      obtain ⟨r, S, hS⟩ : ∃ r S, segment total (n :: rest) = r :: S := by
        cases hseg : segment total (n :: rest) with
        | nil => exact absurd hseg (segment_ne_nil total _ (by simp))
        | cons r S => exact ⟨r, S, rfl⟩
      have hhead : r.start_ts = n.start_ts := by
        have hd := segment_head_start total (n :: rest)
        rw [hS] at hd
        simpa using hd
      have ih := segment_chained total (n :: rest) hh.2
      rw [hS] at ih
      rw [hS]
      simp only [rangesChained, Bool.and_eq_true]
      exact ⟨by simp [hhead], ih⟩

theorem segment_proper (total : Nat) :
    ∀ cues : List Cue, cuesSorted cues = true → noMidLeadOut cues = true →
      lastCueOk total cues = true → leadOutNotAlone cues = true →
      rangesProper (segment total cues) = true
  | [], _, _, _, _ => rfl
  | [c], _, _, hl, ha => by
    have ha' : ¬c.index = LEAD_OUT_TRACK_NUMBER := by simpa [leadOutNotAlone] using ha
    have hl' : c.index = LEAD_OUT_TRACK_NUMBER ∨ c.start_ts < total := by
      simpa [lastCueOk] using hl
    have hlt : c.start_ts < total := hl'.resolve_left ha'
    simp [segment, rangesProper, hlt]
  | c :: n :: rest, hs, hm, hl, ha => by
    have hs' : c.start_ts < n.start_ts ∧ cuesSorted (n :: rest) = true := by
      simpa [cuesSorted] using hs
    have hm' : c.index ≠ LEAD_OUT_TRACK_NUMBER ∧ noMidLeadOut (n :: rest) = true := by
      simpa [noMidLeadOut] using hm
    by_cases hn : n.index = LEAD_OUT_TRACK_NUMBER
    · match rest with
      | [] => simp [segment, hn, rangesProper, hs'.1]
      | r :: rest' =>
        exfalso
        have := hm'.2
        simp [noMidLeadOut, hn] at this
    · have hltail : lastCueOk total (n :: rest) = true := by
        simpa [lastCueOk, List.getLast?_cons_cons] using hl
      have hatail : leadOutNotAlone (n :: rest) = true := by
        match rest with
        | [] => simpa [leadOutNotAlone] using hn
        | r :: rest' => rfl
      have ih := segment_proper total (n :: rest) hs'.2 hm'.2 hltail hatail
      simp only [segment, if_neg hn]
      simp only [rangesProper, List.all_cons, Bool.and_eq_true] at ih ⊢
      exact ⟨by simp [hs'.1], ih⟩

theorem segment_last_end (total : Nat) :
    ∀ cues : List Cue, cues ≠ [] → noMidLeadOut cues = true →
      leadOutNotAlone cues = true →
      (segment total cues).getLast?.map TrackRange.end_ts =
        some (specFinalEnd total cues)
  | [], hne, _, _ => absurd rfl hne
  | [c], _, _, ha => by
    have ha' : ¬c.index = LEAD_OUT_TRACK_NUMBER := by simpa [leadOutNotAlone] using ha
    simp [segment, specFinalEnd, ha']
  | c :: n :: rest, _, hm, _ => by
    have hm' : c.index ≠ LEAD_OUT_TRACK_NUMBER ∧ noMidLeadOut (n :: rest) = true := by
      simpa [noMidLeadOut] using hm
    by_cases hn : n.index = LEAD_OUT_TRACK_NUMBER
    · match rest with
      | [] => simp [segment, hn, specFinalEnd, List.getLast?_cons_cons]
      | r :: rest' =>
        exfalso
        have := hm'.2
        simp [noMidLeadOut, hn] at this
    · have hatail : leadOutNotAlone (n :: rest) = true := by
        match rest with
        | [] => simpa [leadOutNotAlone] using hn
        | r :: rest' => rfl
      have ih := segment_last_end total (n :: rest) (by simp) hm'.2 hatail
      obtain ⟨r, S, hS⟩ : ∃ r S, segment total (n :: rest) = r :: S := by
        cases hseg : segment total (n :: rest) with
        | nil => exact absurd hseg (segment_ne_nil total _ (by simp))
        | cons r S => exact ⟨r, S, rfl⟩
      simp only [segment, if_neg hn]
      rw [hS, List.getLast?_cons_cons, ← hS, ih]
      simp [specFinalEnd, List.getLast?_cons_cons]

theorem segment_cons_cons (total : Nat) (c n : Cue) (rest : List Cue)
    (hn : n.index ≠ LEAD_OUT_TRACK_NUMBER) :
    segment total (c :: n :: rest) =
      ⟨c.index, c.start_ts, n.start_ts⟩ :: segment total (n :: rest) := by
  conv_lhs => unfold segment
  rw [if_neg hn]

theorem segment_append_leadout (total : Nat) (lo : Cue)
    (hlo : lo.index = LEAD_OUT_TRACK_NUMBER) :
    ∀ cs : List Cue, cs ≠ [] → (∀ c ∈ cs, c.index ≠ LEAD_OUT_TRACK_NUMBER) →
      (segment total (cs ++ [lo])).length = cs.length ∧
      (∀ r ∈ segment total (cs ++ [lo]), r.number ≠ LEAD_OUT_TRACK_NUMBER) ∧
      (segment total (cs ++ [lo])).getLast?.map TrackRange.end_ts =
        some lo.start_ts
  | [], hne, _ => absurd rfl hne
  | [c], _, hm => by
    have hc : c.index ≠ LEAD_OUT_TRACK_NUMBER := hm c (by simp)
    refine ⟨by simp [segment, hlo], ?_, by simp [segment, hlo]⟩
    intro r hr
    simp [segment, hlo] at hr
    rw [hr]
    exact hc
  | c :: c2 :: cs', _, hm => by
    have hc : c.index ≠ LEAD_OUT_TRACK_NUMBER := hm c (by simp)
    have h2 : c2.index ≠ LEAD_OUT_TRACK_NUMBER := hm c2 (by simp)
    have ih := segment_append_leadout total lo hlo (c2 :: cs') (by simp)
      (fun x hx => hm x (by simp [hx]))
    simp only [List.cons_append] at ih ⊢
    rw [segment_cons_cons total c c2 (cs' ++ [lo]) h2]
    obtain ⟨r, S, hS⟩ : ∃ r S, segment total (c2 :: (cs' ++ [lo])) = r :: S := by
      cases hseg : segment total (c2 :: (cs' ++ [lo])) with
      | nil => exact absurd hseg (segment_ne_nil total _ (by simp))
      | cons r S => exact ⟨r, S, rfl⟩
    refine ⟨?_, ?_, ?_⟩
    · simp only [List.length_cons]
      rw [ih.1]
      simp
    · intro x hx
      rcases List.mem_cons.mp hx with h | h
      · rw [h]; exact hc
      · exact ih.2.1 x h
    · rw [hS, List.getLast?_cons_cons, ← hS]
      exact ih.2.2

/-- C1 (amended): for a nonempty, strictly increasing cue list whose lead-out
marker (if any) appears only last and is preceded by at least one real track
cue, and whose last ordinary cue starts before `total`, `segment` produces a
nonempty range list whose first range starts at the first cue's start, in
which consecutive ranges abut (`end_ts = next.start_ts`), every range has
`start_ts < end_ts`, and the final range ends at `total` when the last cue is
an ordinary track, or at the lead-out's start when the last cue is the
lead-out marker. -/
theorem c1_segmentation_partition (total : Nat) (cues : List Cue)
    (hne : cues ≠ []) (hs : cuesSorted cues = true)
    (hm : noMidLeadOut cues = true) (hl : lastCueOk total cues = true)
    (ha : leadOutNotAlone cues = true) :
    segment total cues ≠ [] ∧
    (segment total cues).head?.map TrackRange.start_ts =
      cues.head?.map Cue.start_ts ∧
    rangesChained (segment total cues) = true ∧
    rangesProper (segment total cues) = true ∧
    (segment total cues).getLast?.map TrackRange.end_ts =
      some (specFinalEnd total cues) :=
  ⟨segment_ne_nil total cues hne, segment_head_start total cues,
   segment_chained total cues hm, segment_proper total cues hs hm hl ha,
   segment_last_end total cues hne hm ha⟩

theorem c1_segmentation_partition_witness :
    segment 2000 [(⟨1, 0⟩ : Cue), ⟨2, 1000⟩] ≠ [] ∧
    (segment 2000 [(⟨1, 0⟩ : Cue), ⟨2, 1000⟩]).head?.map TrackRange.start_ts =
      [(⟨1, 0⟩ : Cue), ⟨2, 1000⟩].head?.map Cue.start_ts ∧
    rangesChained (segment 2000 [(⟨1, 0⟩ : Cue), ⟨2, 1000⟩]) = true ∧
    rangesProper (segment 2000 [(⟨1, 0⟩ : Cue), ⟨2, 1000⟩]) = true ∧
    (segment 2000 [(⟨1, 0⟩ : Cue), ⟨2, 1000⟩]).getLast?.map TrackRange.end_ts =
      some (specFinalEnd 2000 [(⟨1, 0⟩ : Cue), ⟨2, 1000⟩]) :=
  c1_segmentation_partition 2000 [⟨1, 0⟩, ⟨2, 1000⟩] (by decide) (by decide)
    (by decide) (by decide) (by decide)

/-- C1 counterexample: a cue list consisting of the lead-out marker alone is
within the spec's stated cue-list invariant (strictly increasing starts,
lead-out last), yet `segment` emits a range for the lead-out itself ending at
`total_samples` (6000), not at the lead-out's start (5000) as the claim
requires. -/
theorem c1_counterexample :
    cuesSorted [(⟨170, 5000⟩ : Cue)] = true ∧
    noMidLeadOut [(⟨170, 5000⟩ : Cue)] = true ∧
    lastCueOk 6000 [(⟨170, 5000⟩ : Cue)] = true ∧
    segment 6000 [(⟨170, 5000⟩ : Cue)] = [⟨170, 5000, 6000⟩] ∧
    (segment 6000 [(⟨170, 5000⟩ : Cue)]).getLast?.map TrackRange.end_ts ≠
      some 5000 := by
  refine ⟨rfl, rfl, rfl, rfl, by decide⟩

/-- C2: for every cue list of real track cues followed by the lead-out marker,
segmentation produces one range per real track (the lead-out yields no range
of its own), no range carries the lead-out number, and the final range ends at
the lead-out's start; in particular cues [{1,0},{2,1000},{170,5000}] with
total 6000 yield exactly {1,[0,1000)} and {2,[1000,5000)}. -/
theorem c2_leadout_absorption (total : Nat) (cs : List Cue) (lo : Cue)
    (hne : cs ≠ []) (hm : ∀ c ∈ cs, c.index ≠ LEAD_OUT_TRACK_NUMBER)
    (hlo : lo.index = LEAD_OUT_TRACK_NUMBER) :
    ((segment total (cs ++ [lo])).length = cs.length ∧
      (∀ r ∈ segment total (cs ++ [lo]), r.number ≠ LEAD_OUT_TRACK_NUMBER) ∧
      (segment total (cs ++ [lo])).getLast?.map TrackRange.end_ts =
        some lo.start_ts) ∧
    segment 6000 [(⟨1, 0⟩ : Cue), ⟨2, 1000⟩, ⟨170, 5000⟩] =
      [⟨1, 0, 1000⟩, ⟨2, 1000, 5000⟩] :=
  ⟨segment_append_leadout total lo hlo cs hne hm, rfl⟩

theorem c2_leadout_absorption_witness :
    ((segment 6000 ([(⟨1, 0⟩ : Cue), ⟨2, 1000⟩] ++ [⟨170, 5000⟩])).length =
        [(⟨1, 0⟩ : Cue), ⟨2, 1000⟩].length ∧
      (∀ r ∈ segment 6000 ([(⟨1, 0⟩ : Cue), ⟨2, 1000⟩] ++ [⟨170, 5000⟩]),
        r.number ≠ LEAD_OUT_TRACK_NUMBER) ∧
      (segment 6000
          ([(⟨1, 0⟩ : Cue), ⟨2, 1000⟩] ++ [⟨170, 5000⟩])).getLast?.map
        TrackRange.end_ts = some 5000) ∧
    segment 6000 [(⟨1, 0⟩ : Cue), ⟨2, 1000⟩, ⟨170, 5000⟩] =
      [⟨1, 0, 1000⟩, ⟨2, 1000, 5000⟩] :=
  c2_leadout_absorption 6000 [⟨1, 0⟩, ⟨2, 1000⟩] ⟨170, 5000⟩ (by decide)
    (by decide) rfl

/-- C7 counterexample: the cue list [{1,500},{2,500}] has two cues with equal
start positions, yet segmentation does not fail: it silently returns ranges
including the zero-length range {1,[500,500)}. -/
theorem c7_counterexample :
    segment 1000 [(⟨1, 500⟩ : Cue), ⟨2, 500⟩] =
      [⟨1, 500, 500⟩, ⟨2, 500, 1000⟩] ∧
    rangesProper (segment 1000 [(⟨1, 500⟩ : Cue), ⟨2, 500⟩]) = false := by
  exact ⟨rfl, rfl⟩

/-- C7 (amended): segmentation performs no cue validation and cannot fail: it
is a total function on cue lists. A lead-out marker that is not last silently
yields a range for the lead-out itself with inverted bounds (here
{170,[5000,0)}), rather than a MalformedCue error. -/
theorem c7_no_validation :
    segment 6000 [(⟨170, 5000⟩ : Cue), ⟨1, 0⟩] =
      [⟨170, 5000, 0⟩, ⟨1, 0, 6000⟩] ∧
    rangesProper (segment 6000 [(⟨170, 5000⟩ : Cue), ⟨1, 0⟩]) = false := by
  exact ⟨rfl, rfl⟩

/-- Modelled from the spec: the variable-length (UTF-8-like) position-value
encoding of section 4.2 in the frame-rewrite library, which is not under
src/. The number of leading set bits of the first byte gives the total byte
count (1 to 7); each continuation byte carries 6 payload bits. Values up to
2^36 - 1 are representable. Bytes are `Nat`s below 256. -/
def encodePos (v : Nat) : List Nat :=
  if v < 128 then [v]
  else if v < 2048 then [192 + v / 64, 128 + v % 64]
  else if v < 65536 then [224 + v / 4096, 128 + v / 64 % 64, 128 + v % 64]
  else if v < 2097152 then
    [240 + v / 262144, 128 + v / 4096 % 64, 128 + v / 64 % 64, 128 + v % 64]
  else if v < 67108864 then
    [248 + v / 16777216, 128 + v / 262144 % 64, 128 + v / 4096 % 64,
      128 + v / 64 % 64, 128 + v % 64]
  else if v < 2147483648 then
    [252 + v / 1073741824, 128 + v / 16777216 % 64, 128 + v / 262144 % 64,
      128 + v / 4096 % 64, 128 + v / 64 % 64, 128 + v % 64]
  else
    [254, 128 + v / 1073741824 % 64, 128 + v / 16777216 % 64,
      128 + v / 262144 % 64, 128 + v / 4096 % 64, 128 + v / 64 % 64,
      128 + v % 64]

/-- Modelled from the spec: decoding of the variable-length position value
(the inverse direction of `encodePos`), on the exact byte run of the field.
Returns `none` when the bytes are not a well-formed encoding. -/
def decodePos : List Nat → Option Nat
  | [a] => if a < 128 then some a else none
  | [a, b] =>
    if 192 ≤ a ∧ a < 224 ∧ 128 ≤ b ∧ b < 192 then
      some ((a - 192) * 64 + (b - 128))
    else none
  | [a, b, c] =>
    if 224 ≤ a ∧ a < 240 ∧ 128 ≤ b ∧ b < 192 ∧ 128 ≤ c ∧ c < 192 then
      some ((a - 224) * 4096 + (b - 128) * 64 + (c - 128))
    else none
  | [a, b, c, d] =>
    if 240 ≤ a ∧ a < 248 ∧ 128 ≤ b ∧ b < 192 ∧ 128 ≤ c ∧ c < 192 ∧
        128 ≤ d ∧ d < 192 then
      some ((a - 240) * 262144 + (b - 128) * 4096 + (c - 128) * 64 + (d - 128))
    else none
  | [a, b, c, d, e] =>
    if 248 ≤ a ∧ a < 252 ∧ 128 ≤ b ∧ b < 192 ∧ 128 ≤ c ∧ c < 192 ∧
        128 ≤ d ∧ d < 192 ∧ 128 ≤ e ∧ e < 192 then
      some ((a - 248) * 16777216 + (b - 128) * 262144 + (c - 128) * 4096 +
        (d - 128) * 64 + (e - 128))
    else none
  | [a, b, c, d, e, f] =>
    if 252 ≤ a ∧ a < 254 ∧ 128 ≤ b ∧ b < 192 ∧ 128 ≤ c ∧ c < 192 ∧
        128 ≤ d ∧ d < 192 ∧ 128 ≤ e ∧ e < 192 ∧ 128 ≤ f ∧ f < 192 then
      some ((a - 252) * 1073741824 + (b - 128) * 16777216 +
        (c - 128) * 262144 + (d - 128) * 4096 + (e - 128) * 64 + (f - 128))
    else none
  | [a, b, c, d, e, f, g] =>
    if a = 254 ∧ 128 ≤ b ∧ b < 192 ∧ 128 ≤ c ∧ c < 192 ∧ 128 ≤ d ∧ d < 192 ∧
        128 ≤ e ∧ e < 192 ∧ 128 ≤ f ∧ f < 192 ∧ 128 ≤ g ∧ g < 192 then
      some ((b - 128) * 1073741824 + (c - 128) * 16777216 +
        (d - 128) * 262144 + (e - 128) * 4096 + (f - 128) * 64 + (g - 128))
    else none
  | _ => none

theorem decodePos_encodePos (v : Nat) (h : v < 68719476736) :
    decodePos (encodePos v) = some v := by
  unfold encodePos
  split
  · rename_i h1
    simp [decodePos, h1]
  · split
    · rename_i h1 h2
      simp only [decodePos]
      split
      · exact congrArg some (by omega)
      · omega
    · split
      · rename_i h1 h2 h3
        simp only [decodePos]
        split
        · exact congrArg some (by omega)
        · omega
      · split
        · rename_i h1 h2 h3 h4
          simp only [decodePos]
          split
          · exact congrArg some (by omega)
          · omega
        · split
          · rename_i h1 h2 h3 h4 h5
            simp only [decodePos]
            split
            · exact congrArg some (by omega)
            · omega
          · split
            · rename_i h1 h2 h3 h4 h5 h6
              simp only [decodePos]
              split
              · exact congrArg some (by omega)
              · omega
            · rename_i h1 h2 h3 h4 h5 h6
              simp only [decodePos]
              rw [if_pos
                (by refine ⟨trivial, ?_, ?_, ?_, ?_, ?_, ?_, ?_, ?_, ?_, ?_, ?_, ?_⟩
                    <;> omega)]
              exact congrArg some (by omega)

theorem decodePos_lt (l : List Nat) (p : Nat) (h : decodePos l = some p) :
    p < 68719476736 := by
  match l with
  | [] => simp [decodePos] at h
  | [a] =>
    simp only [decodePos] at h
    split at h <;> simp_all
    omega
  | [a, b] =>
    simp only [decodePos] at h
    split at h <;> simp_all
    omega
  | [a, b, c] =>
    simp only [decodePos] at h
    split at h <;> simp_all
    omega
  | [a, b, c, d] =>
    simp only [decodePos] at h
    split at h <;> simp_all
    omega
  | [a, b, c, d, e] =>
    simp only [decodePos] at h
    split at h <;> simp_all
    omega
  | [a, b, c, d, e, f] =>
    simp only [decodePos] at h
    split at h <;> simp_all
    omega
  | [a, b, c, d, e, f, g] =>
    simp only [decodePos] at h
    split at h <;> simp_all
    omega
  | a :: b :: c :: d :: e :: f :: g :: x :: t =>
    simp [decodePos] at h

/-- Modelled from the spec: one shift round of the 8-bit header checksum
(polynomial 0x07, no reflection, initialised to 0; section 4.2 step 4 of the
spec; the implementation lives in the library crate, not under src/). -/
def crc8Round (c : Nat) : Nat :=
  if 128 ≤ c then (c * 2) % 256 ^^^ 7 else (c * 2) % 256

/-- Feed one byte into the 8-bit checksum state. -/
def crc8Byte (c b : Nat) : Nat := Nat.iterate crc8Round 8 (c ^^^ b)

/-- The 8-bit header checksum over a byte sequence. -/
def crc8 (bs : List Nat) : Nat := bs.foldl crc8Byte 0

/-- Modelled from the spec: one shift round of the 16-bit frame checksum
(polynomial 0x8005, no reflection, initialised to 0; section 4.2 step 6). -/
def crc16Round (c : Nat) : Nat :=
  if 32768 ≤ c then (c * 2) % 65536 ^^^ 32773 else (c * 2) % 65536

/-- Feed one byte into the 16-bit checksum state. -/
def crc16Byte (c b : Nat) : Nat := Nat.iterate crc16Round 8 (c ^^^ (b * 256))

/-- The 16-bit whole-frame checksum over a byte sequence. -/
def crc16 (bs : List Nat) : Nat := bs.foldl crc16Byte 0

/-- Modelled from the spec: a parsed frame (section 4.2): the fixed 4-byte
bit-packed header prefix (sync pattern, block-size/sample-rate and
channel/sample-size codes, copied through unchanged), the variable-length
position field, any escape-coded block-size/sample-rate bytes, the stored
8-bit header checksum, the unmodified payload, and the stored 16-bit footer
checksum (big-endian byte pair). -/
structure RawFrame where
  hdr : List Nat
  posBytes : List Nat
  rest : List Nat
  crc8b : Nat
  payload : List Nat
  crc16hi : Nat
  crc16lo : Nat
  deriving DecidableEq, Repr

/-- Header bytes of a frame: everything before the header-checksum byte. -/
def RawFrame.headerBytes (f : RawFrame) : List Nat :=
  f.hdr ++ f.posBytes ++ f.rest

/-- All frame bytes except the trailing 2-byte footer checksum. -/
def RawFrame.bodyBytes (f : RawFrame) : List Nat :=
  f.headerBytes ++ [f.crc8b] ++ f.payload

/-- The serialized frame bytes. -/
def RawFrame.render (f : RawFrame) : List Nat :=
  f.bodyBytes ++ [f.crc16hi, f.crc16lo]

/-- Modelled from the spec: re-serialize a frame around a new position value
(section 4.2 steps 3-6): re-encode the position, recompute the 8-bit
checksum over the new header bytes, copy the payload unmodified, recompute
the 16-bit checksum over the new header-through-payload bytes. -/
def rebuildFrame (f : RawFrame) (newPos : Nat) : RawFrame :=
  let pb := encodePos newPos
  let h := f.hdr ++ pb ++ f.rest
  let c8 := crc8 h
  let body := h ++ [c8] ++ f.payload
  let c16 := crc16 body
  { hdr := f.hdr, posBytes := pb, rest := f.rest, crc8b := c8,
    payload := f.payload, crc16hi := c16 / 256, crc16lo := c16 % 256 }

/-- The result of one frame rewrite: the new bytes plus two diagnostic flags
reporting whether the input frame's stored checksums were consistent. -/
structure RewriteResult where
  bytes : List Nat
  header_checksum_was_valid : Bool
  footer_checksum_was_valid : Bool
  deriving DecidableEq, Repr

/-- Modelled from the spec: the frame rewrite (section 4.2, the library's
`OffsetFrame::process` core): decode the absolute position, validate the
original checksums (diagnostics only), subtract the track-start offset, and
re-serialize with freshly computed checksums. Fails only when the position
field cannot be parsed. -/
def processFrame (f : RawFrame) (offset : Nat) : Except String RewriteResult :=
  match decodePos f.posBytes with
  | none => Except.error "unparseable frame header"
  | some p =>
    let hv := f.crc8b == crc8 f.headerBytes
    let fv := f.crc16hi * 256 + f.crc16lo == crc16 f.bodyBytes
    let g := rebuildFrame f (p - offset)
    Except.ok { bytes := g.render, header_checksum_was_valid := hv,
                footer_checksum_was_valid := fv }

theorem processFrame_eq (f : RawFrame) (p offset : Nat)
    (hdec : decodePos f.posBytes = some p) :
    processFrame f offset =
      Except.ok { bytes := (rebuildFrame f (p - offset)).render,
                  header_checksum_was_valid := f.crc8b == crc8 f.headerBytes,
                  footer_checksum_was_valid :=
                    f.crc16hi * 256 + f.crc16lo == crc16 f.bodyBytes } := by
  unfold processFrame
  rw [hdec]

/-- C3: for every frame whose position field decodes to the absolute value p
and every track start s with s ≤ p, the rewrite succeeds and produces a frame
whose position field decodes to p - s; re-encoding that decoded value
reproduces exactly the emitted position bytes (the decode-then-re-encode step
is idempotent), and any second rewrite call with the same inputs returns
byte-identical output. -/
theorem c3_rewrite_rebase (f : RawFrame) (p s : Nat)
    (hdec : decodePos f.posBytes = some p) (hs : s ≤ p) :
    ∃ r, processFrame f s = Except.ok r ∧
      r.bytes = (rebuildFrame f (p - s)).render ∧
      decodePos (rebuildFrame f (p - s)).posBytes = some (p - s) ∧
      encodePos (p - s) = (rebuildFrame f (p - s)).posBytes ∧
      ∀ r2, processFrame f s = Except.ok r2 → r2.bytes = r.bytes := by
  have hlt : p < 68719476736 := decodePos_lt f.posBytes p hdec
  have heq := processFrame_eq f p s hdec
  refine ⟨_, heq, rfl, ?_, rfl, ?_⟩
  · exact decodePos_encodePos (p - s) (by omega)
  · intro r2 h2
    rw [heq] at h2
    cases h2
    rfl

theorem c3_rewrite_rebase_witness :
    decodePos [5] = some 5 ∧ 3 ≤ 5 ∧
    (∃ r,
      processFrame ⟨[255, 248, 200, 16], [5], [], 0, [1, 2], 0, 0⟩ 3 =
        Except.ok r ∧
      r.bytes =
        (rebuildFrame ⟨[255, 248, 200, 16], [5], [], 0, [1, 2], 0, 0⟩
            (5 - 3)).render ∧
      decodePos
          (rebuildFrame ⟨[255, 248, 200, 16], [5], [], 0, [1, 2], 0, 0⟩
            (5 - 3)).posBytes = some (5 - 3) ∧
      encodePos (5 - 3) =
        (rebuildFrame ⟨[255, 248, 200, 16], [5], [], 0, [1, 2], 0, 0⟩
          (5 - 3)).posBytes ∧
      ∀ r2,
        processFrame ⟨[255, 248, 200, 16], [5], [], 0, [1, 2], 0, 0⟩ 3 =
          Except.ok r2 → r2.bytes = r.bytes) :=
  ⟨by decide, by decide,
    c3_rewrite_rebase ⟨[255, 248, 200, 16], [5], [], 0, [1, 2], 0, 0⟩ 5 3
      (by decide) (by decide)⟩

/-- C4: the rewrite is unconditional. Even when the input frame's stored
header checksum differs from the checksum of its own header bytes, the
function still returns a rewritten frame, merely reporting
`header_checksum_was_valid = false`; the emitted frame embeds a header
checksum equal to the 8-bit checksum recomputed over the new header bytes
and a footer checksum equal to the 16-bit checksum recomputed over the new
header-through-payload bytes. -/
theorem c4_flags_diagnostic_only (f : RawFrame) (p s : Nat)
    (hdec : decodePos f.posBytes = some p)
    (hbad : f.crc8b ≠ crc8 f.headerBytes) :
    ∃ r, processFrame f s = Except.ok r ∧
      r.header_checksum_was_valid = false ∧
      r.bytes = (rebuildFrame f (p - s)).render ∧
      (rebuildFrame f (p - s)).crc8b =
        crc8 (rebuildFrame f (p - s)).headerBytes ∧
      (rebuildFrame f (p - s)).crc16hi * 256 +
          (rebuildFrame f (p - s)).crc16lo =
        crc16 (rebuildFrame f (p - s)).bodyBytes := by
  have heq := processFrame_eq f p s hdec
  refine ⟨_, heq, ?_, rfl, rfl, ?_⟩
  · simpa using hbad
  · have h1 : (rebuildFrame f (p - s)).crc16hi =
        crc16 (rebuildFrame f (p - s)).bodyBytes / 256 := rfl
    have h2 : (rebuildFrame f (p - s)).crc16lo =
        crc16 (rebuildFrame f (p - s)).bodyBytes % 256 := rfl
    rw [h1, h2]
    omega

theorem c4_flags_diagnostic_only_witness :
    decodePos [7] = some 7 ∧
    (⟨[255, 248, 200, 16], [7], [], 0, [1, 2], 0, 0⟩ : RawFrame).crc8b ≠
      crc8 (⟨[255, 248, 200, 16], [7], [], 0, [1, 2], 0, 0⟩ :
        RawFrame).headerBytes ∧
    (∃ r,
      processFrame ⟨[255, 248, 200, 16], [7], [], 0, [1, 2], 0, 0⟩ 2 =
        Except.ok r ∧
      r.header_checksum_was_valid = false ∧
      r.bytes =
        (rebuildFrame ⟨[255, 248, 200, 16], [7], [], 0, [1, 2], 0, 0⟩
            (7 - 2)).render ∧
      (rebuildFrame ⟨[255, 248, 200, 16], [7], [], 0, [1, 2], 0, 0⟩
            (7 - 2)).crc8b =
        crc8 (rebuildFrame ⟨[255, 248, 200, 16], [7], [], 0, [1, 2], 0, 0⟩
            (7 - 2)).headerBytes ∧
      (rebuildFrame ⟨[255, 248, 200, 16], [7], [], 0, [1, 2], 0, 0⟩
              (7 - 2)).crc16hi * 256 +
          (rebuildFrame ⟨[255, 248, 200, 16], [7], [], 0, [1, 2], 0, 0⟩
            (7 - 2)).crc16lo =
        crc16 (rebuildFrame ⟨[255, 248, 200, 16], [7], [], 0, [1, 2], 0, 0⟩
            (7 - 2)).bodyBytes) :=
  ⟨by decide, by decide,
    c4_flags_diagnostic_only ⟨[255, 248, 200, 16], [7], [], 0, [1, 2], 0, 0⟩
      7 2 (by decide) (by decide)⟩

/-- A decoded packet as delivered by the container decoder (a symphonia
`Packet`): absolute timestamp and duration in samples, plus the raw frame
bytes, kept here in parsed form. -/
structure Packet where
  ts : Nat
  dur : Nat
  frame : RawFrame
  deriving DecidableEq, Repr

/-- Modelled from the spec: the library's per-track `OffsetFrame` rewriting
state (`OffsetFrame::default()` is created afresh for each track in
`write_audio`): it records the first seen frame's absolute position as the
offset to subtract, so each track's first emitted frame reads as position 0
(spec section 4.2 guarantee and 4.3). -/
structure OffsetFrame where
  offset : Option Nat
  deriving DecidableEq, Repr

/-- Modelled from the spec: `OffsetFrame::process` — decode the packet's
frame position, fix the track offset on first use, and delegate to the frame
rewrite. -/
def OffsetFrame.process (st : OffsetFrame) (pkt : Packet) :
    Except String (OffsetFrame × RewriteResult) :=
  match decodePos pkt.frame.posBytes with
  | none => Except.error "unparseable frame header"
  | some p =>
    let ofs := st.offset.getD p
    match processFrame pkt.frame ofs with
    | Except.error e => Except.error e
    | Except.ok r => Except.ok (⟨some ofs⟩, r)

/-- Failures surfaced by the `write_audio` loop: `endOfInput` embeds the
`format!("last end: {:?} vs {:?}", last_end, self.end_ts)` context attached
to a failing `next_packet()` call; `orderingViolation` is the
`assert_ge!(ts, self.start_ts)` panic; `frameError` propagates a frame
processing failure. -/
inductive SplitErr where
  | endOfInput (lastEnd endTs : Nat)
  | orderingViolation (ts startTs : Nat)
  | frameError (msg : String)
  deriving DecidableEq, Repr

/-- The `Track::write_audio` loop of split_file.rs (lines 259-291) for a
track covering `[startTs, endTs)`: pull the next packet (an exhausted
packet source surfaces as an error, as symphonia's `next_packet` returns
`Err` at end of stream and the loop propagates it via `?`), assert
`ts >= startTs`, rewrite the frame, emit its bytes, and stop successfully
once `last_end = ts + dur` reaches `endTs`. Returns the emitted byte
buffers, the final rewriter state, and the unconsumed packets. -/
def write_audio (startTs endTs : Nat) :
    OffsetFrame → Nat → List Packet →
      Except SplitErr (List (List Nat) × OffsetFrame × List Packet)
  | _, lastEnd, [] => Except.error (SplitErr.endOfInput lastEnd endTs)
  | st, _, pkt :: rest =>
    if pkt.ts < startTs then
      Except.error (SplitErr.orderingViolation pkt.ts startTs)
    else
      match st.process pkt with
      | Except.error e => Except.error (SplitErr.frameError e)
      | Except.ok (st2, r) =>
        let lastEnd2 := pkt.ts + pkt.dur
        if endTs ≤ lastEnd2 then Except.ok ([r.bytes], st2, rest)
        else
          match write_audio startTs endTs st2 lastEnd2 rest with
          | Except.error e => Except.error e
          | Except.ok (outs, stF, remaining) =>
            Except.ok (r.bytes :: outs, stF, remaining)

/-- C6: a packet whose timestamp precedes the open track's start aborts the
loop with an ordering violation carrying both timestamps; and whenever every
packet in the stream satisfies `startTs ≤ ts`, the ordering-violation branch
is unreachable, whatever the rewriter state and accumulator. -/
theorem c6_ordering_violation (startTs endTs : Nat) (pkt : Packet)
    (rest : List Packet) (st : OffsetFrame) (lastEnd : Nat)
    (hlt : pkt.ts < startTs) :
    write_audio startTs endTs st lastEnd (pkt :: rest) =
      Except.error (SplitErr.orderingViolation pkt.ts startTs) ∧
    ∀ (pks : List Packet) (st2 : OffsetFrame) (le2 : Nat),
      (∀ q ∈ pks, startTs ≤ q.ts) →
      ∀ a b, write_audio startTs endTs st2 le2 pks ≠
        Except.error (SplitErr.orderingViolation a b) := by
  constructor
  · unfold write_audio
    rw [if_pos hlt]
  · intro pks
    induction pks with
    | nil =>
      intro st2 le2 _ a b
      simp [write_audio]
    | cons q qs ih =>
      intro st2 le2 hall a b
      have hq : startTs ≤ q.ts := hall q (by simp)
      unfold write_audio
      rw [if_neg (by omega)]
      match hpr : st2.process q with
      | Except.error e => simp
      | Except.ok (st3, r) =>
        simp only []
        split
        · simp
        · match hrec : write_audio startTs endTs st3 (q.ts + q.dur) qs with
          | Except.error e =>
            have := ih st3 (q.ts + q.dur) (fun x hx => hall x (by simp [hx]))
              a b
            simp only [hrec] at this ⊢
            simpa using this
          | Except.ok (outs, stF, remaining) => simp

theorem c6_ordering_violation_witness :
    write_audio 100 2000 ⟨none⟩ 0
        [⟨50, 100, ⟨[255, 248, 200, 16], [5], [], 0, [], 0, 0⟩⟩] =
      Except.error (SplitErr.orderingViolation 50 100) :=
  (c6_ordering_violation 100 2000
    ⟨50, 100, ⟨[255, 248, 200, 16], [5], [], 0, [], 0, 0⟩⟩ [] ⟨none⟩ 0
    (by decide)).1

/-- C8 counterexample: with the track [0, 2000) still open, a stream holding
a single packet covering [0,100) is exhausted before the track's end, and
`write_audio` returns an end-of-input error (the `next_packet()?` call
propagates it, with the last_end/end_ts context) instead of completing
successfully. -/
theorem c8_counterexample :
    write_audio 0 2000 ⟨none⟩ 0
        [⟨0, 100, ⟨[255, 248, 200, 16], [5], [], 0, [], 0, 0⟩⟩] =
      Except.error (SplitErr.endOfInput 100 2000) := rfl

/-- C8 (amended): when the packet stream is exhausted while the current
track is still open (no packet has reached the track's end), `write_audio`
does not finalize the track silently: it propagates the decoder's
end-of-input as an error carrying the accumulated `last_end` and the
track's `end_ts`. -/
theorem c8_eof_is_error (startTs endTs : Nat) (st : OffsetFrame)
    (lastEnd : Nat) :
    write_audio startTs endTs st lastEnd [] =
      Except.error (SplitErr.endOfInput lastEnd endTs) := rfl

/-- Width in bytes of a variable-length position field, read off its first
byte (leading set bits), 0 for an invalid first byte. -/
def posWidth (b : Nat) : Nat :=
  if b < 128 then 1
  else if b < 192 then 0
  else if b < 224 then 2
  else if b < 240 then 3
  else if b < 248 then 4
  else if b < 252 then 5
  else if b < 254 then 6
  else if b = 254 then 7
  else 0

/-- Decode the position field embedded in rendered frame bytes: skip the
4-byte fixed header prefix, then decode the variable-length run found
there. -/
def posOfBytes (bs : List Nat) : Option Nat :=
  match (bs.drop 4).head? with
  | none => none
  | some b => decodePos ((bs.drop 4).take (posWidth b))

/-- Frame i of the synthetic two-track scenario, carrying absolute position
i in its position field. -/
def scenFrame (i : Nat) : RawFrame :=
  ⟨[255, 248, 200, 16], encodePos i, [], 0, [9, 9], 0, 0⟩

/-- The synthetic packet stream: 20 packets at timestamps 0,100,...,1900,
each of duration 100, packet i carrying frame i. -/
def scenPackets : List Packet :=
  (List.range 20).map fun i => ⟨100 * i, 100, scenFrame i⟩

/-- C5: in the two-track scenario (cues {1,0} and {2,1000}, total 2000, no
lead-out, packets at 0,100,...,1900 of duration 100), the driver gives the
first 10 packets to track 1 and stops exactly when `last_end` reaches 1000,
leaving packets 10..19, which track 2 then consumes exactly; each track's
frames decode to re-based positions 0..9, and no packet is dropped or
duplicated at the boundary. -/
theorem c5_two_track_split :
    segment 2000 [(⟨1, 0⟩ : Cue), ⟨2, 1000⟩] =
      [⟨1, 0, 1000⟩, ⟨2, 1000, 2000⟩] ∧
    write_audio 0 1000 ⟨none⟩ 0 scenPackets =
      Except.ok
        ((List.range 10).map fun i => (rebuildFrame (scenFrame i) i).render,
          ⟨some 0⟩, scenPackets.drop 10) ∧
    write_audio 1000 2000 ⟨none⟩ 0 (scenPackets.drop 10) =
      Except.ok
        ((List.range 10).map fun i =>
            (rebuildFrame (scenFrame (10 + i)) i).render,
          ⟨some 10⟩, []) ∧
    ((List.range 10).map fun i =>
        posOfBytes (rebuildFrame (scenFrame i) i).render) =
      (List.range 10).map some ∧
    ((List.range 10).map fun i =>
        posOfBytes (rebuildFrame (scenFrame (10 + i)) i).render) =
      (List.range 10).map some := by
  exact ⟨rfl, rfl, rfl, by decide, by decide⟩

/-- A metadata tag value (symphonia `Value`); only string values are
consulted by the path logic, every other variant is collapsed into
`other`. -/
inductive Value where
  | str (s : String)
  | other
  deriving DecidableEq, Repr

/-- A metadata tag (symphonia `Tag`). The source also carries a `std_key`
field, which the modelled code copies but never consults, so it is
omitted. -/
structure Tag where
  key : String
  value : Value
  deriving DecidableEq, Repr

/-- An embedded picture (symphonia `Visual`), reduced to the fields the
modelled code reads. -/
structure Visual where
  media_type : String
  data : List Nat
  deriving DecidableEq, Repr

/-- The FLAC stream-info metadata block (metaflac `StreamInfo`); `md5` is
the 16-byte MD5 signature as a byte list. -/
structure StreamInfo where
  min_block_size : Nat
  max_block_size : Nat
  min_frame_size : Nat
  max_frame_size : Nat
  sample_rate : Nat
  channels : Nat
  bits_per_sample : Nat
  total_samples : Nat
  md5 : List Nat
  deriving DecidableEq, Repr

/-- One track to split out (the `Track` struct of split_file.rs). -/
structure Track where
  streaminfo : StreamInfo
  number : Nat
  start_ts : Nat
  end_ts : Nat
  tags : List Tag
  visuals : List Visual
  deriving DecidableEq, Repr

/-- Rust's `str::ends_with`, modelled over the strings' characters. -/
def ends_with (s p : String) : Bool :=
  s.data.drop (s.data.length - p.data.length) == p.data

/-- Rust's `usize::from_str`, modelled over the string's characters:
all-digit strings (with at least one digit) parse as decimal. The source
additionally accepts a leading `+` and rejects values above `usize::MAX`;
neither case arises here. -/
def usize_from_str (s : String) : Option Nat :=
  if !s.data.isEmpty && s.data.all Char.isDigit then
    some (s.data.foldl (fun acc c => acc * 10 + (c.toNat - 48)) 0)
  else none

/-- Tags worth copying into a track's output: names ending in `]` (another
track's suffixed tag), `CUESHEET` and `LOG` are excluded
(`Track::interesting_tag`). -/
def Track.interesting_tag (name : String) : Bool :=
  !ends_with name "]" && name != "CUESHEET" && name != "LOG"

/-- `Track::from_tags` (split_file.rs lines 128-162): filter/rename the
stream's tags for this cue (tags suffixed `[N]` for this track's index have
the suffix stripped; unsuffixed interesting tags are kept; the rest are
dropped), copy the visuals, and derive the per-track stream info from the
input stream info by replacing the MD5 signature with sixteen zero bytes
and the total sample count with the track's length `end_ts - start_ts`.
The source slices the suffix off by byte length; since the suffix is ASCII,
dropping `suffix.length` characters is the same operation. -/
def Track.from_tags (streaminfo : StreamInfo) (cue : Cue) (end_ts : Nat)
    (tags : List Tag) (visuals : List Visual) : Track :=
  let suffix := "[" ++ toString cue.index ++ "]"
  let tags := tags.filterMap fun tag =>
    let tagName :=
      if ends_with tag.key suffix then some (tag.key.dropRight suffix.length)
      else if Track.interesting_tag tag.key then some tag.key
      else none
    tagName.map fun key => (⟨key, tag.value⟩ : Tag)
  { streaminfo :=
      { streaminfo with
        md5 := List.replicate 16 0,
        total_samples := end_ts - cue.start_ts },
    number := cue.index, start_ts := cue.start_ts, end_ts := end_ts,
    tags := tags, visuals := visuals }

/-- `Track::tag_value`: the value of the first tag with the given name. -/
def Track.tag_value (t : Track) (name : String) : Option Value :=
  (t.tags.find? fun tag => tag.key == name).map Tag.value

/-- `Track::sanitize_pathname`: replace every path-separator character in a
tag value with an underscore before using it as a path segment. On the unix
target `std::path::is_separator` holds exactly for `/`; the source's
`Cow` borrow-vs-own branch only avoids an allocation and does not change
the result. -/
def Track.sanitize_pathname (name : String) : String :=
  String.mk (name.data.map fun c => if c = '/' then '_' else c)

/-- Rust's `{:02}` formatting of an unsigned integer: zero-padded to at
least two digits. -/
def fmt02 (n : Nat) : String :=
  if n < 10 then "0" ++ toString n else toString n

/-- `Track::pathname` (split_file.rs lines 179-213), as the list of path
segments pushed onto the `PathBuf`: artist (ALBUMARTIST, else ARTIST, else
"Unknown Artist"), album ("DATE - ALBUM" when both present, ALBUM alone
without a date, "Unknown Album" without an album), and — only when both
TRACKNUMBER and TITLE are present as strings — "NN.TITLE.flac" with 99 for
an unparsable track number. -/
def Track.pathname (t : Track) : List String :=
  let artistSeg :=
    match t.tag_value "ALBUMARTIST" with
    | some (Value.str artist) => Track.sanitize_pathname artist
    | _ =>
      match t.tag_value "ARTIST" with
      | some (Value.str artist) => Track.sanitize_pathname artist
      | _ => "Unknown Artist"
  let albumSeg :=
    match t.tag_value "ALBUM" with
    | some (Value.str album) =>
      match t.tag_value "DATE" with
      | some (Value.str year) =>
        year ++ " - " ++ Track.sanitize_pathname album
      | _ => Track.sanitize_pathname album
    | _ => "Unknown Album"
  let fileSegs :=
    match t.tag_value "TRACKNUMBER", t.tag_value "TITLE" with
    | some (Value.str trackno), some (Value.str title) =>
      match usize_from_str trackno with
      | some n => [fmt02 n ++ "." ++ Track.sanitize_pathname title ++ ".flac"]
      | none => ["99." ++ Track.sanitize_pathname title ++ ".flac"]
    | _, _ => []
  [artistSeg, albumSeg] ++ fileSegs

/-- Display of a tag value (`tag.value.to_string()`); string values display
as themselves, the display of non-string values is abstracted. -/
def valueString : Value → String
  | Value.str s => s
  | Value.other => ""

/-- A FLAC metadata block as assembled by `write_metadata` (metaflac
`Block`), reduced to the data the code puts into it. -/
inductive Block where
  | streamInfoB (si : StreamInfo)
  | vorbisCommentB (vendor : String) (comments : List (String × String))
  | pictureB (mime : String) (data : List Nat)
  deriving DecidableEq, Repr

/-- The metadata blocks `Track::write_metadata` (split_file.rs lines
216-256) writes after the `fLaC` marker: the track's stream info, the
vorbis comment built from its tags, then one picture block per visual.
Byte-level serialization and the is-last flag are abstracted away. -/
def Track.write_metadata (t : Track) : List Block :=
  Block.streamInfoB t.streaminfo
    :: Block.vorbisCommentB "asf\x27s silly track splitter"
        (t.tags.map fun tag => (tag.key, valueString tag.value))
    :: t.visuals.map fun v => Block.pictureB v.media_type v.data

/-- C10: a track built by `from_tags` carries the input stream info with
exactly two fields changed — `total_samples` becomes `end_ts - start_ts`
and the MD5 signature becomes sixteen zero bytes, every other field copied
unchanged — and `write_metadata` emits precisely that stream info as the
first metadata block of the track's output. -/
theorem c10_streaminfo_rewrite (si : StreamInfo) (cue : Cue) (end_ts : Nat)
    (tags : List Tag) (visuals : List Visual) :
    (Track.from_tags si cue end_ts tags visuals).streaminfo =
      { si with total_samples := end_ts - cue.start_ts,
                md5 := List.replicate 16 0 } ∧
    (Track.from_tags si cue end_ts tags visuals).write_metadata.head? =
      some (Block.streamInfoB
        { si with total_samples := end_ts - cue.start_ts,
                  md5 := List.replicate 16 0 }) :=
  ⟨rfl, rfl⟩

/-- A concrete track whose tags contain an ARTIST but no ALBUMARTIST. -/
def c9Track : Track :=
  { streaminfo := ⟨4096, 4096, 0, 0, 44100, 2, 16, 1000, List.replicate 16 0⟩,
    number := 1, start_ts := 0, end_ts := 1000,
    tags := [⟨"ARTIST", Value.str "Some Band"⟩], visuals := [] }

/-- C9 counterexample: for a track with no ALBUMARTIST tag but an ARTIST
tag, the first path segment is the ARTIST value, not "Unknown Artist" as
the claim requires for an absent album-artist tag (and with TRACKNUMBER and
TITLE absent, no filename segment is produced at all). -/
theorem c9_counterexample :
    c9Track.tag_value "ALBUMARTIST" = none ∧
    c9Track.pathname = ["Some Band", "Unknown Album"] ∧
    "Some Band" ≠ "Unknown Artist" := by
  exact ⟨rfl, by decide, by decide⟩

/-- C9 (amended): when ALBUMARTIST, ALBUM, DATE, TRACKNUMBER and TITLE are
all present as string tags and TRACKNUMBER parses as an integer, the
derived path is `<ALBUMARTIST>/<DATE - ALBUM>/<NN>.<TITLE>.flac`, with
path-separator characters replaced by `_` inside the artist, album and
title values (the year is used verbatim; when ALBUMARTIST is absent the
code falls back to ARTIST before "Unknown Artist"; without a DATE the album
segment is the album alone; the filename segment is produced only when both
TRACKNUMBER and TITLE are present). -/
theorem c9_pathname_shape (t : Track)
    (artist album year trackno title : String) (n : Nat)
    (h1 : t.tag_value "ALBUMARTIST" = some (Value.str artist))
    (h2 : t.tag_value "ALBUM" = some (Value.str album))
    (h3 : t.tag_value "DATE" = some (Value.str year))
    (h4 : t.tag_value "TRACKNUMBER" = some (Value.str trackno))
    (h5 : t.tag_value "TITLE" = some (Value.str title))
    (h6 : usize_from_str trackno = some n) :
    t.pathname =
      [Track.sanitize_pathname artist,
        year ++ " - " ++ Track.sanitize_pathname album,
        fmt02 n ++ "." ++ Track.sanitize_pathname title ++ ".flac"] := by
  unfold Track.pathname
  rw [h1, h2, h3, h4, h5]
  dsimp only
  rw [h6]
  rfl

/-- A concrete track with a full set of string tags, the artist containing
a path separator. -/
def c9FullTrack : Track :=
  { streaminfo := ⟨4096, 4096, 0, 0, 44100, 2, 16, 1000, List.replicate 16 0⟩,
    number := 2, start_ts := 0, end_ts := 1000,
    tags := [⟨"ALBUMARTIST", Value.str "AC/DC"⟩,
      ⟨"ALBUM", Value.str "Back in Black"⟩,
      ⟨"DATE", Value.str "1980"⟩,
      ⟨"TRACKNUMBER", Value.str "2"⟩,
      ⟨"TITLE", Value.str "Hells Bells"⟩],
    visuals := [] }

theorem c9_pathname_shape_witness :
    c9FullTrack.pathname =
      ["AC_DC", "1980 - Back in Black", "02.Hells Bells.flac"] := by
  rw [c9_pathname_shape c9FullTrack "AC/DC" "Back in Black" "1980" "2"
        "Hells Bells" 2 rfl rfl rfl rfl rfl (by decide)]
  decide

end FlacSplit
